import Mathlib

/-!
Verification of the trace-to-architecture inference engine and the drift
engine of the Automated Architecture Discovery repository.

The Python sources are shallowly embedded:
* `src/drift_detector.py` — change sets, drift scoring and severity tiers;
* `src/architecture_tracer.py` — per-trace inference of services,
  dependency edges and endpoint catalogues;
* `src/advanced_drift_tracker.py` — history loading, the architecture
  content hash and snapshot capture.

Python values that may be `None` are embedded as `Option`; Python
truthiness on such values (`if service:`) is the predicate `truthy`
below (`None` and the empty string are falsy).  Python `set`s and the
`defaultdict(set)` registries are embedded as `Finset`s of their
elements (the registries never hold an empty value set, so the set of
key/value pairs determines them).
-/

namespace ArchDiscovery

/-! ### Drift scorer (`src/drift_detector.py`, `_calculate_drift_score`)

A Change Set holds the six facet diffs.  In the source each facet is a
Python list freshly built from a set difference (`list(curr - base)`),
so the length of the list is the cardinality of the set; we embed the
facets as `Finset String` and lengths as `Finset.card`. -/

structure ChangeSet where
  services_added : Finset String
  services_removed : Finset String
  dependencies_added : Finset String
  dependencies_removed : Finset String
  endpoints_added : Finset String
  endpoints_removed : Finset String
deriving DecidableEq

/-- Severity tiers assigned by `_calculate_drift_score`. -/
inductive Severity where
  | NO_CHANGE
  | LOW
  | MEDIUM
  | HIGH
  | CRITICAL
deriving DecidableEq, Repr

/-- Numeric rank of a severity tier, in the order the source's
`elif` ladder produces them; used to state monotonicity. -/
def sevRank : Severity → Nat
  | .NO_CHANGE => 0
  | .LOW => 1
  | .MEDIUM => 2
  | .HIGH => 3
  | .CRITICAL => 4

/-- Embeds the score computation of `_calculate_drift_score`
(`src/drift_detector.py` lines 101-116): a running total over the six
weighted categories, capped at 100 by `min(score, 100)`. -/
def calculate_drift_score (c : ChangeSet) : Nat :=
  let score := 0
  let score := score + c.services_added.card * 15
  let score := score + c.services_removed.card * 20
  let score := score + c.dependencies_added.card * 7
  let score := score + c.dependencies_removed.card * 10
  let score := score + c.endpoints_added.card * 3
  let score := score + c.endpoints_removed.card * 5
  min score 100

/-- Embeds the severity ladder of `_calculate_drift_score`
(`src/drift_detector.py` lines 118-128). -/
def severityOfScore (s : Nat) : Severity :=
  if s = 0 then .NO_CHANGE
  else if s < 20 then .LOW
  else if s < 50 then .MEDIUM
  else if s < 80 then .HIGH
  else .CRITICAL

/-- C1: for every Change Set the drift score equals the weighted linear
sum `15*|services_added| + 20*|services_removed| + 7*|dependencies_added|
+ 10*|dependencies_removed| + 3*|endpoints_added| + 5*|endpoints_removed|`
clamped at 100 (the clamp is `min`, never a wraparound), and consequently
the score always lies in `[0, 100]`. -/
theorem drift_score_is_clamped_weighted_sum (c : ChangeSet) :
    calculate_drift_score c =
      min (15 * c.services_added.card + 20 * c.services_removed.card +
           7 * c.dependencies_added.card + 10 * c.dependencies_removed.card +
           3 * c.endpoints_added.card + 5 * c.endpoints_removed.card) 100 ∧
    0 ≤ calculate_drift_score c ∧ calculate_drift_score c ≤ 100 := by
  refine ⟨?_, Nat.zero_le _, ?_⟩ <;> simp only [calculate_drift_score] <;> omega

/-- C2: for every score `s` in `[0, 100]` the severity tier is exactly
`NO_CHANGE` at 0, `LOW` on 1-19, `MEDIUM` on 20-49, `HIGH` on 50-79 and
`CRITICAL` on 80-100, and severity rank is non-decreasing in the score. -/
theorem severity_tiers_and_monotone :
    (∀ s : Nat, s ≤ 100 →
      ((severityOfScore s = .NO_CHANGE ↔ s = 0) ∧
       (severityOfScore s = .LOW ↔ 1 ≤ s ∧ s ≤ 19) ∧
       (severityOfScore s = .MEDIUM ↔ 20 ≤ s ∧ s ≤ 49) ∧
       (severityOfScore s = .HIGH ↔ 50 ≤ s ∧ s ≤ 79) ∧
       (severityOfScore s = .CRITICAL ↔ 80 ≤ s ∧ s ≤ 100))) ∧
    (∀ s1 s2 : Nat, s1 ≤ s2 →
      sevRank (severityOfScore s1) ≤ sevRank (severityOfScore s2)) := by
  constructor
  · intro s hs
    unfold severityOfScore
    split_ifs <;> simp_all <;> omega
  · intro s1 s2 h
    unfold severityOfScore
    split_ifs <;> simp [sevRank] <;> omega

/-- Witness for C2 at concrete scores: the tier equivalences at score 0
and monotonicity between scores 15 and 85. -/
theorem severity_tiers_and_monotone_witness :
    ((severityOfScore 0 = .NO_CHANGE ↔ (0 : Nat) = 0) ∧
     (severityOfScore 0 = .LOW ↔ 1 ≤ (0 : Nat) ∧ (0 : Nat) ≤ 19) ∧
     (severityOfScore 0 = .MEDIUM ↔ 20 ≤ (0 : Nat) ∧ (0 : Nat) ≤ 49) ∧
     (severityOfScore 0 = .HIGH ↔ 50 ≤ (0 : Nat) ∧ (0 : Nat) ≤ 79) ∧
     (severityOfScore 0 = .CRITICAL ↔ 80 ≤ (0 : Nat) ∧ (0 : Nat) ≤ 100)) ∧
    sevRank (severityOfScore 15) ≤ sevRank (severityOfScore 85) :=
  ⟨severity_tiers_and_monotone.1 0 (by decide),
   severity_tiers_and_monotone.2 15 85 (by decide)⟩

/-! ### Persisted architecture documents and the content hash
(`src/advanced_drift_tracker.py`, `calculate_architecture_hash`)

A persisted snapshot document (`discovered_architecture.json`) carries
`services` as a list, `service_dependencies` and `service_endpoints` as
mappings from a service to a list (embedded as association lists whose
keys, coming from a Python `dict`, are duplicate-free), plus
`timestamp`, `user_journeys` and `metrics`, which the hash must ignore. -/

structure ArchDoc where
  services : List String
  service_dependencies : List (String × List String)
  service_endpoints : List (String × List String)
  timestamp : String
  user_journeys : List String
  metrics : List (String × Nat)
deriving DecidableEq

/-- Lexicographic comparison of character sequences by code point — the
order Python string comparison (and hence `sorted` and `sort_keys`)
uses. -/
def lexLe : List Char → List Char → Bool
  | [], _ => true
  | _ :: _, [] => false
  | x :: xs, y :: ys =>
    if x < y then true else if x = y then lexLe xs ys else false

/-- Python `s1 <= s2` on strings. -/
abbrev strLe (a b : String) : Prop := lexLe a.data b.data = true

instance : DecidableRel strLe := fun _ _ => inferInstanceAs (Decidable (_ = true))

theorem lexLe_total (a b : List Char) : lexLe a b = true ∨ lexLe b a = true := by
  induction a generalizing b with
  | nil => left; rfl
  | cons x xs ih =>
    cases b with
    | nil => right; rfl
    | cons y ys =>
      rcases lt_trichotomy x y with h | h | h
      · left; simp [lexLe, h]
      · subst h
        rcases ih ys with h2 | h2
        · left; simp [lexLe, lt_irrefl, h2]
        · right; simp [lexLe, lt_irrefl, h2]
      · right; simp [lexLe, h]

theorem lexLe_trans (a b c : List Char) (h1 : lexLe a b = true)
    (h2 : lexLe b c = true) : lexLe a c = true := by
  induction a generalizing b c with
  | nil => rfl
  | cons x xs ih =>
    cases b with
    | nil => simp [lexLe] at h1
    | cons y ys =>
      cases c with
      | nil => simp [lexLe] at h2
      | cons z zs =>
        rcases lt_trichotomy x y with hxy | hxy | hxy
        · rcases lt_trichotomy y z with hyz | hyz | hyz
          · simp [lexLe, lt_trans hxy hyz]
          · subst hyz; simp [lexLe, hxy]
          · simp [lexLe, lt_asymm hyz, hyz.ne'] at h2
        · subst hxy
          simp only [lexLe, lt_irrefl] at h1
          simp only [if_false, if_pos rfl] at h1
          rcases lt_trichotomy x z with hyz | hyz | hyz
          · simp [lexLe, hyz]
          · subst hyz
            simp only [lexLe, lt_irrefl] at h2 ⊢
            simp only [if_false, if_pos rfl] at h2 ⊢
            exact ih ys zs h1 h2
          · simp [lexLe, lt_asymm hyz, hyz.ne'] at h2
        · simp [lexLe, lt_asymm hxy, hxy.ne'] at h1

theorem lexLe_antisymm (a b : List Char) (h1 : lexLe a b = true)
    (h2 : lexLe b a = true) : a = b := by
  induction a generalizing b with
  | nil =>
    cases b with
    | nil => rfl
    | cons y ys => simp [lexLe] at h2
  | cons x xs ih =>
    cases b with
    | nil => simp [lexLe] at h1
    | cons y ys =>
      rcases lt_trichotomy x y with h | h | h
      · simp [lexLe, lt_asymm h, h.ne'] at h2
      · subst h
        simp only [lexLe, lt_irrefl] at h1 h2
        simp only [if_false, if_pos rfl] at h1 h2
        rw [ih ys h1 h2]
      · simp [lexLe, lt_asymm h, h.ne'] at h1

instance : IsTotal String strLe := ⟨fun a b => lexLe_total a.data b.data⟩

instance : IsTrans String strLe := ⟨fun a b c => lexLe_trans a.data b.data c.data⟩

instance : IsAntisymm String strLe :=
  ⟨fun a b h1 h2 => by
    cases a; cases b
    exact congrArg String.mk (lexLe_antisymm _ _ h1 h2)⟩

/-- Python `sorted` on a list of strings. -/
def sortStr (l : List String) : List String := l.insertionSort strLe

/-- The key ordering `json.dumps(..., sort_keys=True)` applies to the
entries of a mapping. -/
def sortByKey (m : List (String × List String)) : List (String × List String) :=
  m.insertionSort (fun p q => strLe p.1 q.1)

/-- The dict comprehension `{k: sorted(v) for k, v in m.items()}`. -/
def canonEntries (m : List (String × List String)) : List (String × List String) :=
  m.map (fun p => (p.1, sortStr p.2))

def quoteStr : String := "\""

def itemSep : String := ", "

def kvSep : String := ": "

def lbrace : String := "\x7b"

def rbrace : String := "\x7d"

def depsKey : String := "dependencies"

def endpointsKey : String := "endpoints"

def servicesKey : String := "services"

/-- JSON rendering of a string (the identifiers in play need no escaping). -/
def jstr (s : String) : String := quoteStr ++ s ++ quoteStr

/-- JSON rendering of a list of strings, `json.dumps` default separators. -/
def jlist (xs : List String) : String :=
  "[" ++ String.intercalate itemSep (xs.map jstr) ++ "]"

/-- JSON rendering of a string-to-list mapping whose entries are already
in key order. -/
def jmap (m : List (String × List String)) : String :=
  lbrace ++ String.intercalate itemSep (m.map (fun p => jstr p.1 ++ kvSep ++ jlist p.2)) ++ rbrace

/-- The stable string representation built by `calculate_architecture_hash`
(`src/advanced_drift_tracker.py` lines 60-69): services sorted, each
mapping's value lists sorted, keys in sorted order (`sort_keys=True`
orders the three top-level keys `dependencies < endpoints < services`). -/
def arch_string (d : ArchDoc) : String :=
  lbrace ++ jstr depsKey ++ kvSep ++ jmap (sortByKey (canonEntries d.service_dependencies)) ++
  itemSep ++ jstr endpointsKey ++ kvSep ++ jmap (sortByKey (canonEntries d.service_endpoints)) ++
  itemSep ++ jstr servicesKey ++ kvSep ++ jlist (sortStr d.services) ++ rbrace

/-- The fingerprint.  The source returns `md5(arch_string).hexdigest()`;
MD5 is a fixed deterministic function of the canonical string, so the
fingerprint is embedded as the canonical string itself (equal strings
give equal digests; the concrete counterexample strings below were also
checked to have distinct MD5 digests). -/
def calculate_architecture_hash (d : ArchDoc) : String := arch_string d

instance : IsTotal (String × List String) (fun p q => strLe p.1 q.1) :=
  ⟨fun a b => total_of strLe a.1 b.1⟩

instance : IsTrans (String × List String) (fun p q => strLe p.1 q.1) :=
  ⟨fun _ _ _ h1 h2 => trans_of strLe h1 h2⟩

instance : IsAntisymm (String × List String) (fun p q => strLe p.1 q.1 ∧ p.1 ≠ q.1) :=
  ⟨fun _ _ h1 h2 => absurd (antisymm h1.1 h2.1) h1.2⟩

/-- Sorting a list of strings is invariant under permutation. -/
theorem sortStr_eq_of_perm {l1 l2 : List String} (h : l1.Perm l2) :
    sortStr l1 = sortStr l2 :=
  List.eq_of_perm_of_sorted
    ((List.perm_insertionSort _ l1).trans (h.trans (List.perm_insertionSort _ l2).symm))
    (List.sorted_insertionSort _ l1) (List.sorted_insertionSort _ l2)

/-- Sorting mapping entries by key is invariant under permutation of the
entries, provided the keys are duplicate-free (as they are for a dict). -/
theorem sortByKey_eq_of_perm {l1 l2 : List (String × List String)}
    (h : l1.Perm l2) (hk : (l1.map Prod.fst).Nodup) :
    sortByKey l1 = sortByKey l2 := by
  have hp : (sortByKey l1).Perm (sortByKey l2) :=
    (List.perm_insertionSort _ l1).trans (h.trans (List.perm_insertionSort _ l2).symm)
  have hstrict : ∀ m : List (String × List String),
      (m.map Prod.fst).Nodup →
      (sortByKey m).Pairwise (fun p q => strLe p.1 q.1 ∧ p.1 ≠ q.1) := by
    intro m hm
    have hs : (sortByKey m).Pairwise (fun p q => strLe p.1 q.1) :=
      List.sorted_insertionSort _ m
    have hperm : (sortByKey m).Perm m := List.perm_insertionSort _ m
    have hnd : ((sortByKey m).map Prod.fst).Nodup :=
      ((hperm.map Prod.fst).nodup_iff).mpr hm
    have hne : (sortByKey m).Pairwise (fun p q => p.1 ≠ q.1) :=
      (List.pairwise_map).mp hnd
    exact hs.and hne
  have hk2 : (l2.map Prod.fst).Nodup := ((h.map Prod.fst).nodup_iff).mp hk
  exact List.eq_of_perm_of_sorted hp (hstrict l1 hk) (hstrict l2 hk2)

/-- C5 (amended): the fingerprint is a deterministic function of the
`services`, `service_dependencies` and `service_endpoints` fields alone —
reordering the services list, the mapping entries or any value list, and
changing `timestamp`, `user_journeys` or `metrics` arbitrarily, never
changes the hash (documents differing in element multiplicity are not
covered: they may hash apart even though equal as sets). -/
theorem hash_pure_function_of_architecture (d1 d2 : ArchDoc)
    (hs : d1.services.Perm d2.services)
    (hd : (canonEntries d1.service_dependencies).Perm (canonEntries d2.service_dependencies))
    (hdk : (d1.service_dependencies.map Prod.fst).Nodup)
    (he : (canonEntries d1.service_endpoints).Perm (canonEntries d2.service_endpoints))
    (hek : (d1.service_endpoints.map Prod.fst).Nodup) :
    calculate_architecture_hash d1 = calculate_architecture_hash d2 := by
  have hdk1 : ((canonEntries d1.service_dependencies).map Prod.fst).Nodup := by
    simpa [canonEntries, List.map_map, Function.comp] using hdk
  have hek1 : ((canonEntries d1.service_endpoints).map Prod.fst).Nodup := by
    simpa [canonEntries, List.map_map, Function.comp] using hek
  unfold calculate_architecture_hash arch_string
  rw [sortStr_eq_of_perm hs, sortByKey_eq_of_perm hd hdk1, sortByKey_eq_of_perm he hek1]

def docDup : ArchDoc :=
  ⟨["auth", "auth"], [], [], "2025-01-01T00:00:00", [], []⟩

def docOne : ArchDoc :=
  ⟨["auth"], [], [], "2025-01-01T00:00:00", [], []⟩

/-- C5 counterexample: two documents whose `services`,
`service_dependencies` and `service_endpoints` are equal as sets /
set-valued mappings (one lists `auth` twice) hash differently, so the
claim as stated — equality of the fields as sets suffices for equal
fingerprints — is false. -/
theorem hash_counterexample_multiplicity :
    docDup.services.toFinset = docOne.services.toFinset ∧
    docDup.service_dependencies = docOne.service_dependencies ∧
    docDup.service_endpoints = docOne.service_endpoints ∧
    calculate_architecture_hash docDup ≠ calculate_architecture_hash docOne := by
  refine ⟨by decide, rfl, rfl, by decide⟩

def docShuffled : ArchDoc :=
  ⟨["b", "a"], [("s", ["y", "x"]), ("r", ["a"])], [("s", ["e2", "e1"])],
   "2025-01-01T00:00:00", ["j1"], [("total_services", 2)]⟩

def docOrdered : ArchDoc :=
  ⟨["a", "b"], [("r", ["a"]), ("s", ["x", "y"])], [("s", ["e1", "e2"])],
   "2025-02-02T12:00:00", [], []⟩

/-- Witness for C5 (amended) at two concrete documents differing in
timestamps, journeys, metrics and every ordering. -/
theorem hash_pure_function_witness :
    docShuffled.services.Perm docOrdered.services ∧
    (canonEntries docShuffled.service_dependencies).Perm
      (canonEntries docOrdered.service_dependencies) ∧
    (docShuffled.service_dependencies.map Prod.fst).Nodup ∧
    (canonEntries docShuffled.service_endpoints).Perm
      (canonEntries docOrdered.service_endpoints) ∧
    (docShuffled.service_endpoints.map Prod.fst).Nodup ∧
    calculate_architecture_hash docShuffled = calculate_architecture_hash docOrdered := by
  refine ⟨by decide, by decide, by decide, by decide, by decide, ?_⟩
  exact hash_pure_function_of_architecture docShuffled docOrdered
    (by decide) (by decide) (by decide) (by decide) (by decide)

/-! ### History store (`src/advanced_drift_tracker.py`)

A history entry is one element of the persisted `drift_history.json`
list: `{timestamp, hash, architecture, changes, drift_score}` (the
`metrics` field of the entry is a copy of `architecture.metrics` and is
omitted).  `changes` is either the distinguished initial marker
`{'initial_snapshot': True}` or a six-facet diff. -/

inductive Changes where
  | initial
  | diff (cs : ChangeSet)
deriving DecidableEq

structure HistEntry where
  timestamp : String
  hash : String
  architecture : ArchDoc
  changes : Changes
  drift_score : Nat
deriving DecidableEq

/-- Outcome of `_load_history`: either a loaded history together with the
console message, or a fatal error.  The source never produces the fatal
case; it is present so that the spec's "surfaced as fatal" is
expressible. -/
inductive LoadOutcome where
  | ok (history : List HistEntry) (message : String)
  | fatal (message : String)
deriving DecidableEq

def msgLoaded (n : Nat) : String :=
  "Loaded " ++ toString n ++ " historical snapshots"

def msgNoPrevious : String := "No previous history found - starting fresh"

def msgCreating : String := "Creating new drift history"

/-- Embeds `_load_history` (`src/advanced_drift_tracker.py` lines 41-53).
The on-disk state of `drift_history.json` is `none` when the file does
not exist, `some none` when it exists but `json.load` raises (corrupt
contents), and `some (some h)` when it parses to the history `h`.  The
read is wrapped in a bare `except` that resets `self.history` to `[]`. -/
def load_history : Option (Option (List HistEntry)) → LoadOutcome
  | some (some h) => .ok h (msgLoaded h.length)
  | some none => .ok [] msgNoPrevious
  | none => .ok [] msgCreating

/-- C4 counterexample: on a history file that exists but does not parse,
`_load_history` returns the empty history as a success (with only a
console warning), exactly the state produced when no file exists at all
— it does not fail fatally, so the claim as stated is false for the
concrete corrupt-file state `some none`. -/
theorem load_history_corrupt_counterexample :
    load_history (some none) = .ok [] msgNoPrevious ∧
    load_history none = .ok [] msgCreating := ⟨rfl, rfl⟩

/-- C4 (amended): loading the history never fails: a file that exists
but is not valid structured data is silently recovered as the empty
history (differing from the genuine "no history yet" state only in the
console message), and a valid file loads as its contents. -/
theorem load_history_never_fatal :
    (∀ h : List HistEntry, load_history (some (some h)) = .ok h (msgLoaded h.length)) ∧
    load_history (some none) = .ok [] msgNoPrevious ∧
    load_history none = .ok [] msgCreating ∧
    (∀ fs, ∃ hist msg, load_history fs = .ok hist msg) := by
  refine ⟨fun h => rfl, rfl, rfl, fun fs => ?_⟩
  rcases fs with _ | (_ | h) <;> exact ⟨_, _, rfl⟩

def arrowSep : String := " -> "

def colonSep : String := ":"

/-- Embeds `_flatten_dependencies`: the mapping becomes the set of
composite keys `"src -> target"`. -/
def flatten_dependencies (m : List (String × List String)) : Finset String :=
  (m.flatMap (fun p => p.2.map (fun t => p.1 ++ arrowSep ++ t))).toFinset

/-- Embeds `_flatten_endpoints`: the mapping becomes the set of
composite keys `"service:endpoint"`. -/
def flatten_endpoints (m : List (String × List String)) : Finset String :=
  (m.flatMap (fun p => p.2.map (fun e => p.1 ++ colonSep ++ e))).toFinset

/-- Embeds `_detect_changes` (`src/advanced_drift_tracker.py` lines
139-165): set differences per facet. -/
def detect_changes (previous current : ArchDoc) : ChangeSet :=
  let prev_services := previous.services.toFinset
  let curr_services := current.services.toFinset
  let prev_deps := flatten_dependencies previous.service_dependencies
  let curr_deps := flatten_dependencies current.service_dependencies
  let prev_endpoints := flatten_endpoints previous.service_endpoints
  let curr_endpoints := flatten_endpoints current.service_endpoints
  { services_added := curr_services \ prev_services
    services_removed := prev_services \ curr_services
    dependencies_added := curr_deps \ prev_deps
    dependencies_removed := prev_deps \ curr_deps
    endpoints_added := curr_endpoints \ prev_endpoints
    endpoints_removed := prev_endpoints \ curr_endpoints }

/-- Embeds `capture_snapshot` (`src/advanced_drift_tracker.py` lines
71-137).  Inputs: the in-memory history, the architecture document read
from `discovered_architecture.json`, and the current time.  Output: the
new history, the returned snapshot (`none` models the early
`return None`), and whether anything was persisted (the snapshot file
write and `_save_history` both happen exactly on the append path).
`_calculate_drift_score` there repeats the weighted formula of
`src/drift_detector.py`, so `calculate_drift_score` is reused. -/
def capture_snapshot (history : List HistEntry) (current_arch : ArchDoc) (now : String) :
    List HistEntry × Option HistEntry × Bool :=
  let arch_hash := calculate_architecture_hash current_arch
  if history.getLast?.map HistEntry.hash = some arch_hash then
    (history, none, false)
  else
    match history.getLast? with
    | some last =>
      let changes := detect_changes last.architecture current_arch
      let entry : HistEntry :=
        ⟨now, arch_hash, current_arch, .diff changes, calculate_drift_score changes⟩
      (history ++ [entry], some entry, true)
    | none =>
      let entry : HistEntry := ⟨now, arch_hash, current_arch, .initial, 0⟩
      (history ++ [entry], some entry, true)

/-- C8: when the new snapshot's fingerprint equals the hash stored in the
most recent history entry, `capture_snapshot` is a no-op — the history,
its persisted file and all prior entries are untouched and nothing is
written; otherwise exactly one entry is appended after the unchanged
prior entries and the result is persisted. -/
theorem capture_snapshot_noop_or_single_append
    (history : List HistEntry) (arch : ArchDoc) (now : String) :
    (history.getLast?.map HistEntry.hash = some (calculate_architecture_hash arch) →
      capture_snapshot history arch now = (history, none, false)) ∧
    (history.getLast?.map HistEntry.hash ≠ some (calculate_architecture_hash arch) →
      ∃ e, capture_snapshot history arch now = (history ++ [e], some e, true)) := by
  constructor
  · intro h
    simp [capture_snapshot, h]
  · intro h
    cases hl : history.getLast? with
    | some last =>
      have hne : ¬ last.hash = calculate_architecture_hash arch := by
        rw [hl] at h; simpa using h
      exact ⟨⟨now, calculate_architecture_hash arch, arch,
              .diff (detect_changes last.architecture arch),
              calculate_drift_score (detect_changes last.architecture arch)⟩,
        by simp [capture_snapshot, hl, hne]⟩
    | none =>
      exact ⟨⟨now, calculate_architecture_hash arch, arch, .initial, 0⟩,
        by simp [capture_snapshot, hl]⟩

def archEmptyDoc : ArchDoc := ⟨[], [], [], "t0", [], []⟩

def entryZero : HistEntry :=
  ⟨"t0", calculate_architecture_hash archEmptyDoc, archEmptyDoc, .initial, 0⟩

/-- Witness for C8: a duplicate hash is a strict no-op, and a fresh hash
appends exactly one entry to the empty history. -/
theorem capture_snapshot_witness :
    ([entryZero].getLast?.map HistEntry.hash =
       some (calculate_architecture_hash archEmptyDoc)) ∧
    capture_snapshot [entryZero] archEmptyDoc "t1" = ([entryZero], none, false) ∧
    (([] : List HistEntry).getLast?.map HistEntry.hash ≠
       some (calculate_architecture_hash archEmptyDoc)) ∧
    (∃ e, capture_snapshot [] archEmptyDoc "t1" = ([] ++ [e], some e, true)) :=
  ⟨rfl,
   (capture_snapshot_noop_or_single_append [entryZero] archEmptyDoc "t1").1 rfl,
   by simp,
   (capture_snapshot_noop_or_single_append [] archEmptyDoc "t1").2 (by simp)⟩

/-- C9: capturing into an empty history appends an entry whose Change
Set is the distinguished initial marker (a constructor distinct from any
six-list diff), whose drift score is 0, and whose score maps to severity
`NO_CHANGE`. -/
theorem first_snapshot_initial_zero_nochange (arch : ArchDoc) (now : String) :
    ∃ e, capture_snapshot [] arch now = ([e], some e, true) ∧
      e.changes = Changes.initial ∧
      e.drift_score = 0 ∧
      severityOfScore e.drift_score = Severity.NO_CHANGE := by
  refine ⟨⟨now, calculate_architecture_hash arch, arch, .initial, 0⟩, ?_, rfl, rfl, rfl⟩
  simp [capture_snapshot]

/-! ### Trace inference (`src/architecture_tracer.py`, `analyze_trace`)

An event is one log entry of a trace; `entry.get('service')` and
`entry.get('endpoint')` are `None` when absent, embedded as `Option`
(the `timestamp` field is only copied into journey metadata and plays no
role in the registries).  Python truthiness (`if service:`) holds for a
present, non-empty string. -/

structure Event where
  service : Option String
  endpoint : Option String
deriving DecidableEq, Repr

/-- Python truthiness of an optional string: `None` and `''` are falsy. -/
def truthy : Option String → Bool
  | none => false
  | some s => !(s == "")

/-- The three accumulating registries of `ArchitectureTracer`:
`all_services` (a `set`), `service_dependencies` and `service_endpoints`
(`defaultdict(set)`, embedded as their sets of key/value pairs — the
code only ever creates a key while adding a value, so no empty value set
arises).  Keys and values are stored raw, exactly as the code adds them
(`service` may be `None`).  The `user_journeys` list is informational
metadata never read by the hash or the diff and is returned separately
by `analyze_trace`. -/
structure TracerState where
  all_services : Finset (Option String)
  service_dependencies : Finset (Option String × Option String)
  service_endpoints : Finset (Option String × Option String)
deriving DecidableEq

def initState : TracerState := ⟨∅, ∅, ∅⟩

/-- The per-trace loop state: the registries plus the trace-local
`services_in_order` list and `previous_service`. -/
structure TraceAcc where
  st : TracerState
  services_in_order : List (Option String)
  previous_service : Option String
deriving DecidableEq

/-- One iteration of the `for entry in trace:` loop of `analyze_trace`
(`src/architecture_tracer.py` lines 94-116): discover the service,
catalogue the endpoint under the raw service value, record a dependency
edge when `previous_service` is truthy and differs from the current
service, then shift `previous_service`. -/
def processEntry (acc : TraceAcc) (e : Event) : TraceAcc :=
  { st :=
      { all_services :=
          if truthy e.service ∧ e.service ∉ acc.services_in_order
          then insert e.service acc.st.all_services else acc.st.all_services
        service_dependencies :=
          if truthy acc.previous_service ∧ acc.previous_service ≠ e.service
          then insert (acc.previous_service, e.service) acc.st.service_dependencies
          else acc.st.service_dependencies
        service_endpoints :=
          if truthy e.endpoint
          then insert (e.service, e.endpoint) acc.st.service_endpoints
          else acc.st.service_endpoints }
    services_in_order :=
      if truthy e.service ∧ e.service ∉ acc.services_in_order
      then acc.services_in_order ++ [e.service] else acc.services_in_order
    previous_service := e.service }

/-- Embeds `analyze_trace`: an empty trace returns immediately leaving
the registries untouched; otherwise the loop runs from a fresh local
state (`previous_service = None`, empty `services_in_order`).  Returns
the updated registries and the journey's ordered service list. -/
def analyze_trace (st : TracerState) (trace : List Event) :
    TracerState × List (Option String) :=
  if trace.isEmpty then (st, [])
  else
    let acc := trace.foldl processEntry ⟨st, [], none⟩
    (acc.st, acc.services_in_order)

/-- Embeds the state accumulation of `process_all_correlation_ids`: each
trace is analyzed in order against the shared registries (journeys, kept
in a list there, never feed the registries or the hash). -/
def process_all (st : TracerState) (traces : List (List Event)) : TracerState :=
  traces.foldl (fun s t => (analyze_trace s t).1) st

/-- The services a single trace contributes: its truthy service values. -/
def traceServices (t : List Event) : Finset (Option String) :=
  ((t.filter (fun e => truthy e.service)).map Event.service).toFinset

/-- The endpoint pairs a single trace contributes: `(service, endpoint)`
for each event with a truthy endpoint, the service value taken raw. -/
def traceEndpoints (t : List Event) : Finset (Option String × Option String) :=
  ((t.filter (fun e => truthy e.endpoint)).map (fun e => (e.service, e.endpoint))).toFinset

/-- The dependency edges the loop derives from a trace, threading
`previous_service` exactly as the code does. -/
def depsFrom : Option String → List Event → List (Option String × Option String)
  | _, [] => []
  | prev, e :: rest =>
    (if truthy prev ∧ prev ≠ e.service then [(prev, e.service)] else []) ++
    depsFrom e.service rest

/-- The dependency edges as the spec describes them: one edge per
consecutive pair of events of the trace whose services differ and whose
first service is truthy. -/
def claimRuleDeps (t : List Event) : List (Option String × Option String) :=
  (t.zip t.tail).filterMap
    (fun p => if truthy p.1.service ∧ p.1.service ≠ p.2.service
              then some (p.1.service, p.2.service) else none)

/-- The dependency rule read literally from the claim: `previous_service`
merely non-null (so an empty-string service would still be a source). -/
def literalRuleDeps (t : List Event) : List (Option String × Option String) :=
  (t.zip t.tail).filterMap
    (fun p => if p.1.service ≠ none ∧ p.1.service ≠ p.2.service
              then some (p.1.service, p.2.service) else none)

/-- Trace-local invariant: everything in `services_in_order` has already
been added to `all_services`.  Holds at loop entry (the list starts
empty) and is preserved by every iteration. -/
def sioInv (acc : TraceAcc) : Prop :=
  ∀ s ∈ acc.services_in_order, s ∈ acc.st.all_services

theorem sioInv_processEntry {acc : TraceAcc} (h : sioInv acc) (e : Event) :
    sioInv (processEntry acc e) := by
  intro s hs
  unfold processEntry at hs ⊢
  dsimp only at hs ⊢
  split_ifs at hs ⊢ with hc
  · rcases List.mem_append.mp hs with hs | hs
    · exact Finset.mem_insert_of_mem (h s hs)
    · simp only [List.mem_singleton] at hs
      exact hs ▸ Finset.mem_insert_self _ _
  · exact h s hs

theorem foldl_all_services :
    ∀ (t : List Event) (acc : TraceAcc), sioInv acc →
      (t.foldl processEntry acc).st.all_services =
        acc.st.all_services ∪ traceServices t := by
  intro t
  induction t with
  | nil => intro acc _; simp [traceServices]
  | cons e rest ih =>
    intro acc hinv
    rw [List.foldl_cons, ih _ (sioInv_processEntry hinv e)]
    by_cases ht : truthy e.service
    · by_cases hm : e.service ∈ acc.services_in_order
      · have h1 : (processEntry acc e).st.all_services = acc.st.all_services := by
          simp [processEntry, ht, hm]
        have h2 : e.service ∈ acc.st.all_services := hinv _ hm
        rw [h1]
        simp only [traceServices, List.filter_cons, ht, if_pos, List.map_cons,
          List.toFinset_cons]
        rw [Finset.union_insert, Finset.insert_eq_self.mpr (Finset.mem_union_left _ h2)]
      · have h1 : (processEntry acc e).st.all_services =
            insert e.service acc.st.all_services := by
          simp [processEntry, ht, hm]
        rw [h1]
        simp only [traceServices, List.filter_cons, ht, if_pos, List.map_cons,
          List.toFinset_cons]
        rw [Finset.insert_union, Finset.union_insert]
    · have h1 : (processEntry acc e).st.all_services = acc.st.all_services := by
        simp [processEntry, ht]
      rw [h1]
      simp only [traceServices, List.filter_cons, ht]
      simp

theorem foldl_endpoints :
    ∀ (t : List Event) (acc : TraceAcc),
      (t.foldl processEntry acc).st.service_endpoints =
        acc.st.service_endpoints ∪ traceEndpoints t := by
  intro t
  induction t with
  | nil => intro acc; simp [traceEndpoints]
  | cons e rest ih =>
    intro acc
    rw [List.foldl_cons, ih]
    by_cases ht : truthy e.endpoint
    · have h1 : (processEntry acc e).st.service_endpoints =
          insert (e.service, e.endpoint) acc.st.service_endpoints := by
        simp [processEntry, ht]
      rw [h1]
      simp only [traceEndpoints, List.filter_cons, ht, if_pos, List.map_cons,
        List.toFinset_cons]
      rw [Finset.insert_union, Finset.union_insert]
    · have h1 : (processEntry acc e).st.service_endpoints =
          acc.st.service_endpoints := by
        simp [processEntry, ht]
      rw [h1]
      simp only [traceEndpoints, List.filter_cons, ht]
      simp

theorem foldl_dependencies :
    ∀ (t : List Event) (acc : TraceAcc),
      (t.foldl processEntry acc).st.service_dependencies =
        acc.st.service_dependencies ∪ (depsFrom acc.previous_service t).toFinset := by
  intro t
  induction t with
  | nil => intro acc; simp [depsFrom]
  | cons e rest ih =>
    intro acc
    rw [List.foldl_cons, ih]
    have hprev : (processEntry acc e).previous_service = e.service := rfl
    rw [hprev]
    by_cases hc : truthy acc.previous_service ∧ acc.previous_service ≠ e.service
    · have h1 : (processEntry acc e).st.service_dependencies =
          insert (acc.previous_service, e.service) acc.st.service_dependencies := by
        simp [processEntry, hc]
      rw [h1]
      simp only [depsFrom]
      rw [if_pos hc]
      simp only [List.toFinset_append, List.toFinset_cons, List.toFinset_nil,
        Finset.insert_union, Finset.empty_union, Finset.union_insert]
    · have h1 : (processEntry acc e).st.service_dependencies =
          acc.st.service_dependencies := by
        simp [processEntry, hc]
      rw [h1]
      simp only [depsFrom]
      rw [if_neg hc]
      simp

/-- The dependency edges a single trace contributes. -/
def traceDeps (t : List Event) : Finset (Option String × Option String) :=
  (depsFrom none t).toFinset

theorem analyze_trace_all_services (st : TracerState) (t : List Event) :
    (analyze_trace st t).1.all_services = st.all_services ∪ traceServices t := by
  by_cases he : t.isEmpty
  · rw [List.isEmpty_iff.mp he]
    simp [analyze_trace, traceServices]
  · simp only [analyze_trace, he, Bool.false_eq_true, if_false]
    exact foldl_all_services t ⟨st, [], none⟩ (fun s hs => by simp at hs)

theorem analyze_trace_dependencies (st : TracerState) (t : List Event) :
    (analyze_trace st t).1.service_dependencies =
      st.service_dependencies ∪ traceDeps t := by
  by_cases he : t.isEmpty
  · rw [List.isEmpty_iff.mp he]
    simp [analyze_trace, traceDeps, depsFrom]
  · simp only [analyze_trace, he, Bool.false_eq_true, if_false]
    exact foldl_dependencies t ⟨st, [], none⟩

theorem analyze_trace_endpoints (st : TracerState) (t : List Event) :
    (analyze_trace st t).1.service_endpoints =
      st.service_endpoints ∪ traceEndpoints t := by
  by_cases he : t.isEmpty
  · rw [List.isEmpty_iff.mp he]
    simp [analyze_trace, traceEndpoints]
  · simp only [analyze_trace, he, Bool.false_eq_true, if_false]
    exact foldl_endpoints t ⟨st, [], none⟩

theorem process_all_cons (st : TracerState) (t : List Event) (ts : List (List Event)) :
    process_all st (t :: ts) = process_all ((analyze_trace st t).1) ts := rfl

theorem process_all_services_mem (traces : List (List Event)) (st : TracerState)
    (x : Option String) :
    x ∈ (process_all st traces).all_services ↔
      x ∈ st.all_services ∨ ∃ t ∈ traces, x ∈ traceServices t := by
  induction traces generalizing st with
  | nil => simp [process_all]
  | cons t ts ih =>
    rw [process_all_cons, ih, analyze_trace_all_services]
    simp only [Finset.mem_union, List.exists_mem_cons_iff]
    tauto

theorem process_all_dependencies_mem (traces : List (List Event)) (st : TracerState)
    (x : Option String × Option String) :
    x ∈ (process_all st traces).service_dependencies ↔
      x ∈ st.service_dependencies ∨ ∃ t ∈ traces, x ∈ traceDeps t := by
  induction traces generalizing st with
  | nil => simp [process_all]
  | cons t ts ih =>
    rw [process_all_cons, ih, analyze_trace_dependencies]
    simp only [Finset.mem_union, List.exists_mem_cons_iff]
    tauto

theorem process_all_endpoints_mem (traces : List (List Event)) (st : TracerState)
    (x : Option String × Option String) :
    x ∈ (process_all st traces).service_endpoints ↔
      x ∈ st.service_endpoints ∨ ∃ t ∈ traces, x ∈ traceEndpoints t := by
  induction traces generalizing st with
  | nil => simp [process_all]
  | cons t ts ih =>
    rw [process_all_cons, ih, analyze_trace_endpoints]
    simp only [Finset.mem_union, List.exists_mem_cons_iff]
    tauto

/-- The edge contributed by `previous_service` against the head of the
remaining trace, if any. -/
def headEdge (prev : Option String) : List Event → List (Option String × Option String)
  | [] => []
  | e :: _ => if truthy prev ∧ prev ≠ e.service then [(prev, e.service)] else []

theorem claimRuleDeps_cons (e : Event) (rest : List Event) :
    claimRuleDeps (e :: rest) = headEdge e.service rest ++ claimRuleDeps rest := by
  cases rest with
  | nil => rfl
  | cons f rs =>
    simp only [claimRuleDeps, headEdge, List.tail_cons, List.zip_cons_cons,
      List.filterMap_cons]
    by_cases hc : truthy e.service ∧ e.service ≠ f.service
    · rw [if_pos hc, if_pos hc]
      rfl
    · rw [if_neg hc, if_neg hc]
      rfl

theorem depsFrom_eq_headEdge_append : ∀ (t : List Event) (prev : Option String),
    depsFrom prev t = headEdge prev t ++ claimRuleDeps t := by
  intro t
  induction t with
  | nil => intro prev; rfl
  | cons e rest ih =>
    intro prev
    simp only [depsFrom, headEdge]
    rw [ih e.service, claimRuleDeps_cons]

theorem depsFrom_none_eq_claimRule (t : List Event) :
    depsFrom none t = claimRuleDeps t := by
  rw [depsFrom_eq_headEdge_append]
  cases t <;> simp [headEdge, truthy]

theorem self_pair_not_mem_claimRuleDeps (t : List Event) (x : Option String) :
    (x, x) ∉ claimRuleDeps t := by
  intro hmem
  simp only [claimRuleDeps, List.mem_filterMap] at hmem
  obtain ⟨p, _, he⟩ := hmem
  by_cases hc : truthy p.1.service ∧ p.1.service ≠ p.2.service
  · rw [if_pos hc] at he
    injection he with he2
    injection he2 with ha hb
    exact hc.2 (ha.trans hb.symm)
  · rw [if_neg hc] at he
    exact Option.noConfusion he

theorem mem_claimRuleDeps_elim (t : List Event) (x y : Option String)
    (h : (x, y) ∈ claimRuleDeps t) :
    ∃ a b : Event, (a, b) ∈ t.zip t.tail ∧ truthy a.service ∧
      a.service = x ∧ b.service = y := by
  simp only [claimRuleDeps, List.mem_filterMap] at h
  obtain ⟨p, hp, he⟩ := h
  by_cases hc : truthy p.1.service ∧ p.1.service ≠ p.2.service
  · rw [if_pos hc] at he
    injection he with he2
    injection he2 with ha hb
    exact ⟨p.1, p.2, by simpa using hp, hc.1, ha, hb⟩
  · rw [if_neg hc] at he
    exact Option.noConfusion he

theorem mem_traceServices_of_truthy {t : List Event} {e : Event}
    (he : e ∈ t) (ht : truthy e.service) : e.service ∈ traceServices t := by
  simp only [traceServices, List.mem_toFinset, List.mem_map]
  exact ⟨e, List.mem_filter.mpr ⟨he, ht⟩, rfl⟩

theorem none_not_mem_traceServices (t : List Event) :
    (none : Option String) ∉ traceServices t := by
  simp only [traceServices, List.mem_toFinset, List.mem_map]
  rintro ⟨e, he, hs⟩
  have := (List.mem_filter.mp he).2
  rw [hs] at this
  simp [truthy] at this

theorem tracerState_eq (a b : TracerState)
    (h1 : a.all_services = b.all_services)
    (h2 : a.service_dependencies = b.service_dependencies)
    (h3 : a.service_endpoints = b.service_endpoints) : a = b := by
  cases a; cases b; cases h1; cases h2; cases h3; rfl

def scenarioTrace : List Event :=
  [⟨some "auth", some "/login"⟩, ⟨some "auth", some "/login"⟩,
   ⟨some "product", some "/search"⟩]

/-- C7 (amended): the dependency edges recorded from a trace are exactly
the pairs `previous_service -> current_service` over consecutive events
whose services differ and whose previous service is truthy (non-null
*and* non-empty — a present empty-string service is falsy and produces
no edge, which is the one amendment); tracking is per trace (the
equation adds only that trace's pairs); consecutive events on the same
service leave the self-pair membership unchanged (no self-edge is ever
added); and the scenario trace
`[(auth,/login),(auth,/login),(product,/search)]` yields services
`{auth, product}`, the single dependency `auth -> product`, and
endpoints `auth:/login`, `product:/search`. -/
theorem dependency_edges_are_adjacent_pairs :
    (∀ (st : TracerState) (t : List Event),
      (analyze_trace st t).1.service_dependencies =
        st.service_dependencies ∪ (claimRuleDeps t).toFinset) ∧
    (∀ (st : TracerState) (t : List Event) (x : Option String),
      ((x, x) ∈ (analyze_trace st t).1.service_dependencies ↔
        (x, x) ∈ st.service_dependencies)) ∧
    (analyze_trace initState scenarioTrace).1 =
      ⟨{some "auth", some "product"}, {(some "auth", some "product")},
       {(some "auth", some "/login"), (some "product", some "/search")}⟩ := by
  have hmain : ∀ (st : TracerState) (t : List Event),
      (analyze_trace st t).1.service_dependencies =
        st.service_dependencies ∪ (claimRuleDeps t).toFinset := by
    intro st t
    rw [analyze_trace_dependencies]
    simp only [traceDeps]
    rw [depsFrom_none_eq_claimRule]
  refine ⟨hmain, ?_, tracerState_eq _ _ (by decide) (by decide) (by decide)⟩
  intro st t x
  rw [hmain, Finset.mem_union]
  simp only [List.mem_toFinset]
  exact or_iff_left (self_pair_not_mem_claimRuleDeps t x)

def blankPrevTrace : List Event :=
  [⟨some "a", none⟩, ⟨some "", none⟩, ⟨some "b", none⟩]

/-- C7 counterexample: the middle event's service is the empty string —
present and non-null — so the rule as claimed ("previous_service
non-null") yields the two edges `a -> ""` and `"" -> b`, but the code's
truthiness guard records only `a -> ""`: the recorded set is not the
claimed set for this trace. -/
theorem dependency_edges_literal_counterexample :
    (analyze_trace initState blankPrevTrace).1.service_dependencies =
      {(some "a", some "")} ∧
    (literalRuleDeps blankPrevTrace).toFinset =
      {(some "a", some ""), (some "", some "b")} ∧
    decide ((some "", some "b") ∈
      (analyze_trace initState blankPrevTrace).1.service_dependencies) = false := by
  refine ⟨by decide, by decide, by decide⟩

/-- C6: processing the same traces in any order yields identical
registries — the merged services, dependency edges and endpoints depend
only on set membership, never on arrival order.  The fingerprint
(`calculate_architecture_hash` of the built map) digests exactly these
three registries after canonicalization, so it is a deterministic
function of this state and is identical across reordered or repeated
runs. -/
theorem inference_order_invariant (l1 l2 : List (List Event)) (hp : l1.Perm l2) :
    process_all initState l1 = process_all initState l2 := by
  have hex : ∀ P : List Event → Prop, (∃ t ∈ l1, P t) ↔ (∃ t ∈ l2, P t) := by
    intro P
    constructor
    · rintro ⟨t, ht, hP⟩; exact ⟨t, hp.mem_iff.mp ht, hP⟩
    · rintro ⟨t, ht, hP⟩; exact ⟨t, hp.mem_iff.mpr ht, hP⟩
  apply tracerState_eq
  · refine Finset.ext (fun x => ?_)
    rw [process_all_services_mem, process_all_services_mem]
    exact or_congr Iff.rfl (hex _)
  · refine Finset.ext (fun x => ?_)
    rw [process_all_dependencies_mem, process_all_dependencies_mem]
    exact or_congr Iff.rfl (hex _)
  · refine Finset.ext (fun x => ?_)
    rw [process_all_endpoints_mem, process_all_endpoints_mem]
    exact or_congr Iff.rfl (hex _)

def traceAuth : List Event := [⟨some "auth", some "/login"⟩, ⟨some "cart", some "/add"⟩]

def traceProd : List Event := [⟨some "product", some "/search"⟩, ⟨some "auth", none⟩]

/-- Witness for C6: two concrete traces processed in both orders give
the same registries. -/
theorem inference_order_invariant_witness :
    [traceAuth, traceProd].Perm [traceProd, traceAuth] ∧
    process_all initState [traceAuth, traceProd] =
      process_all initState [traceProd, traceAuth] :=
  ⟨by decide, inference_order_invariant _ _ (by decide)⟩

/-- The services occurring on either side of a recorded dependency edge. -/
def depParticipants (st : TracerState) : Finset (Option String) :=
  st.service_dependencies.image Prod.fst ∪ st.service_dependencies.image Prod.snd

/-- The services owning a catalogued endpoint. -/
def endpointOwners (st : TracerState) : Finset (Option String) :=
  st.service_endpoints.image Prod.fst

/-- C3 (amended): for traces in which every event carries a truthy
(non-null, non-empty) service, the inferred snapshot satisfies the
closure property: every dependency source, dependency target and
endpoint owner is a member of the accumulated services set.  (Without
that restriction closure fails and is neither enforced nor detected —
see the counterexample.) -/
theorem closure_for_truthy_traces (traces : List (List Event))
    (h : ∀ t ∈ traces, ∀ e ∈ t, truthy e.service) :
    depParticipants (process_all initState traces) ∪
      endpointOwners (process_all initState traces) ⊆
      (process_all initState traces).all_services := by
  intro x hx
  rw [process_all_services_mem]
  right
  rcases Finset.mem_union.mp hx with hx | hx
  · rcases Finset.mem_union.mp hx with hx | hx
    · obtain ⟨p, hp, hpx⟩ := Finset.mem_image.mp hx
      rw [process_all_dependencies_mem] at hp
      rcases hp with hp | ⟨t, ht, hpt⟩
      · simp [initState] at hp
      · simp only [traceDeps] at hpt
        rw [depsFrom_none_eq_claimRule] at hpt
        obtain ⟨a, b, hab, hta, ha, _⟩ :=
          mem_claimRuleDeps_elim t p.1 p.2 (by simpa using List.mem_toFinset.mp hpt)
        have hat : a ∈ t := (List.of_mem_zip hab).1
        exact ⟨t, ht, hpx ▸ ha ▸ mem_traceServices_of_truthy hat hta⟩
    · obtain ⟨p, hp, hpx⟩ := Finset.mem_image.mp hx
      rw [process_all_dependencies_mem] at hp
      rcases hp with hp | ⟨t, ht, hpt⟩
      · simp [initState] at hp
      · simp only [traceDeps] at hpt
        rw [depsFrom_none_eq_claimRule] at hpt
        obtain ⟨a, b, hab, _, _, hb⟩ :=
          mem_claimRuleDeps_elim t p.1 p.2 (by simpa using List.mem_toFinset.mp hpt)
        have hbt : b ∈ t := List.mem_of_mem_tail (List.of_mem_zip hab).2
        have htb : truthy b.service := h t ht b hbt
        exact ⟨t, ht, hpx ▸ hb ▸ mem_traceServices_of_truthy hbt htb⟩
  · obtain ⟨p, hp, hpx⟩ := Finset.mem_image.mp hx
    rw [process_all_endpoints_mem] at hp
    rcases hp with hp | ⟨t, ht, hpt⟩
    · simp [initState] at hp
    · simp only [traceEndpoints, List.mem_toFinset, List.mem_map] at hpt
      obtain ⟨e, he, hpe⟩ := hpt
      have het : e ∈ t := (List.mem_filter.mp he).1
      have hte : truthy e.service := h t ht e het
      have hps : p.1 = e.service := by rw [← hpe]
      exact ⟨t, ht, hpx ▸ hps ▸ mem_traceServices_of_truthy het hte⟩

/-- Witness for C3 (amended) on two concrete all-truthy traces. -/
theorem closure_for_truthy_traces_witness :
    ([traceAuth, traceProd].all (fun t => t.all (fun e => truthy e.service))) = true ∧
    depParticipants (process_all initState [traceAuth, traceProd]) ∪
      endpointOwners (process_all initState [traceAuth, traceProd]) ⊆
      (process_all initState [traceAuth, traceProd]).all_services :=
  ⟨by decide, closure_for_truthy_traces [traceAuth, traceProd] (by decide)⟩

def nullServiceTrace : List Event := [⟨some "auth", some "/login"⟩, ⟨none, some "/x"⟩]

/-- C3 counterexample: a trace whose second event has no service yields
a dependency edge whose target is the null value and an endpoint
catalogued under the null key, while the services set contains only
`auth` — the closure property is violated and nothing in the
implementation enforces or detects it. -/
theorem closure_counterexample :
    (some "auth", none) ∈
      (process_all initState [nullServiceTrace]).service_dependencies ∧
    (none, some "/x") ∈
      (process_all initState [nullServiceTrace]).service_endpoints ∧
    (process_all initState [nullServiceTrace]).all_services = {some "auth"} ∧
    decide ((none : Option String) ∈
      (process_all initState [nullServiceTrace]).all_services) = false := by
  refine ⟨by decide, by decide, by decide, by decide⟩

theorem adj_mem_zip : ∀ (pre : List Event) (e1 e2 : Event) (post : List Event),
    (e1, e2) ∈ (pre ++ e1 :: e2 :: post).zip (pre ++ e1 :: e2 :: post).tail := by
  intro pre
  induction pre with
  | nil =>
    intro e1 e2 post
    simp only [List.nil_append, List.tail_cons, List.zip_cons_cons]
    exact List.mem_cons_self _ _
  | cons p pre ih =>
    intro e1 e2 post
    simp only [List.cons_append, List.tail_cons]
    cases hp : pre ++ e1 :: e2 :: post with
    | nil => exact absurd hp (by simp)
    | cons q rest =>
      rw [List.zip_cons_cons]
      apply List.mem_cons_of_mem
      have h := ih e1 e2 post
      rw [hp] at h
      simpa using h

/-- C10 (amended): an event with no service immediately after an event
with a truthy (non-null, non-empty) service makes the code record a
dependency whose target is the null value — whether or not that event
carries an endpoint; if the service-less event does carry a truthy
(non-empty) endpoint, the endpoint is catalogued under the null service
key; and the null value is never added to the services set (processing
any trace leaves null-membership of `all_services` unchanged). -/
theorem null_service_event_handling (st : TracerState) (pre post : List Event)
    (e1 e2 : Event) (h1 : truthy e1.service) (hnull : e2.service = none) :
    ((e1.service, none) ∈
      (analyze_trace st (pre ++ e1 :: e2 :: post)).1.service_dependencies) ∧
    (truthy e2.endpoint = true →
      (none, e2.endpoint) ∈
        (analyze_trace st (pre ++ e1 :: e2 :: post)).1.service_endpoints) ∧
    (∀ u : List Event,
      ((none : Option String) ∈ (analyze_trace st u).1.all_services ↔
        none ∈ st.all_services)) := by
  refine ⟨?_, ?_, ?_⟩
  · rw [analyze_trace_dependencies, Finset.mem_union]
    right
    simp only [traceDeps]
    rw [depsFrom_none_eq_claimRule]
    simp only [List.mem_toFinset, claimRuleDeps, List.mem_filterMap]
    refine ⟨(e1, e2), adj_mem_zip pre e1 e2 post, ?_⟩
    have hne : e1.service ≠ e2.service := by
      rw [hnull]
      intro hcon
      rw [hcon] at h1
      simp [truthy] at h1
    rw [if_pos ⟨h1, hne⟩, hnull]
  · intro h2
    rw [analyze_trace_endpoints, Finset.mem_union]
    right
    simp only [traceEndpoints, List.mem_toFinset, List.mem_map]
    exact ⟨e2, List.mem_filter.mpr ⟨by simp, h2⟩, by rw [hnull]⟩
  · intro u
    rw [analyze_trace_all_services, Finset.mem_union]
    exact or_iff_left (none_not_mem_traceServices u)

def loginEvent : Event := ⟨some "auth", some "/login"⟩

def ghostEvent : Event := ⟨none, some "/ghost"⟩

def bareEvent : Event := ⟨none, none⟩

/-- Witness for C10 (amended) at two concrete two-event traces: a
service-less event carrying an endpoint (edge recorded and endpoint
catalogued under the null key) and a service-less event with no
endpoint at all (edge still recorded). -/
theorem null_service_event_witness :
    truthy loginEvent.service = true ∧ ghostEvent.service = none ∧
    bareEvent.service = none ∧ truthy ghostEvent.endpoint = true ∧
    ((some "auth", none) ∈
      (analyze_trace initState [loginEvent, ghostEvent]).1.service_dependencies) ∧
    ((none, some "/ghost") ∈
      (analyze_trace initState [loginEvent, ghostEvent]).1.service_endpoints) ∧
    ((some "auth", none) ∈
      (analyze_trace initState [loginEvent, bareEvent]).1.service_dependencies) ∧
    ((none : Option String) ∈ (analyze_trace initState [ghostEvent]).1.all_services ↔
      none ∈ initState.all_services) := by
  have h := null_service_event_handling initState [] [] loginEvent ghostEvent
    (by decide) (by decide)
  have hbare := null_service_event_handling initState [] [] loginEvent bareEvent
    (by decide) (by decide)
  exact ⟨by decide, by decide, by decide, by decide, h.1, h.2.1 (by decide),
    hbare.1, h.2.2 [ghostEvent]⟩

def blankServiceTrace : List Event := [⟨some "", none⟩, ⟨none, some ""⟩]

/-- C10 counterexample: a present empty-string service is non-null, and
an empty-string endpoint is carried by the event, so the claim as stated
asserts the dependency `("" , null)` and an endpoint under the null key;
the code's truthiness guards skip both — the registries stay untouched. -/
theorem null_service_literal_counterexample :
    (analyze_trace initState blankServiceTrace).1 = initState ∧
    decide ((some "", none) ∈
      (analyze_trace initState blankServiceTrace).1.service_dependencies) = false ∧
    decide ((none, some "") ∈
      (analyze_trace initState blankServiceTrace).1.service_endpoints) = false := by
  refine ⟨tracerState_eq _ _ (by decide) (by decide) (by decide), by decide, by decide⟩

end ArchDiscovery
